import Mathlib

/-!
Verification of the dataset-representation and experiment-bookkeeping layer
of the human-vs-chatbot text classification harness.

The development shallowly embeds the two source modules:

* `datasets.py` — tabular sample store (`HumanChatBotDataset`), lazy dataset
  (`LazyHumanChatBotDataset`), the outer-product image projection
  (`get_embedding_as_image_tensor`) and the projection-backed image dataset
  (`ImageByCrossMultiplicationDataset`);
* `models.py` — the training harness base class (`NNBaseModel`): accuracy and
  confusion accounting (`compute_accuracy`), loss accounting (`compute_loss`),
  the evaluation-mode scope guard (`validation_context`), per-epoch metric
  recording (`_validate_after_epoch`) and the epoch loop (`run_training`).

Tensors of floats are embedded as `List ℚ`; a float computation that produces
NaN (0/0) is embedded as `Option`-valued with `none` for the NaN outcome.
Python exceptions become `Except`; Python dicts become association lists.
-/

namespace MLProject

/-! ## Image Projection (`datasets.py`, `get_embedding_as_image_tensor`)

`torch.Tensor.min` / `torch.Tensor.max` over a nonempty 1-D tensor are embedded
as folds over a nonempty list (the `[]` value is arbitrary: torch raises on an
empty tensor and every caller passes a nonempty embedding vector). -/

def listMin : List ℚ → ℚ
  | [] => 0
  | x :: xs => xs.foldl min x

def listMax : List ℚ → ℚ
  | [] => 0
  | x :: xs => xs.foldl max x

/-- Embedding of `get_embedding_as_image_tensor` (datasets.py lines 151-163).
The source computes `(e - e.min()) / (e.max() - e.min())`, then the outer
product `nrm.T @ nrm`, then scales by 255.  When `e.max() - e.min() == 0`
torch evaluates `0.0 / 0.0` elementwise, producing an all-NaN tensor; that
outcome is embedded as `none`.  The channel-reshape `view(1, V, V)` does not
change the matrix contents and is dropped.  Entry `(i, j)` of the result is
`nrm[i] * nrm[j] * 255`. -/
def get_embedding_as_image_tensor (embedding : List ℚ) : Option (List (List ℚ)) :=
  let mn := listMin embedding
  let mx := listMax embedding
  if mx - mn = 0 then none
  else
    let nrm := embedding.map (fun x => (x - mn) / (mx - mn))
    some (nrm.map (fun a => nrm.map (fun b => a * b * 255)))

lemma foldl_min_le_init (xs : List ℚ) (a : ℚ) : xs.foldl min a ≤ a := by
  induction xs generalizing a with
  | nil => simp
  | cons y ys ih =>
    simp only [List.foldl_cons]
    exact le_trans (ih (min a y)) (min_le_left a y)

lemma foldl_min_le_mem {xs : List ℚ} {x : ℚ} (hx : x ∈ xs) (a : ℚ) :
    xs.foldl min a ≤ x := by
  induction xs generalizing a with
  | nil => cases hx
  | cons y ys ih =>
    simp only [List.foldl_cons]
    rcases List.mem_cons.mp hx with rfl | hx'
    · exact le_trans (foldl_min_le_init ys (min a x)) (min_le_right a x)
    · exact ih hx' (min a y)

lemma init_le_foldl_max (xs : List ℚ) (a : ℚ) : a ≤ xs.foldl max a := by
  induction xs generalizing a with
  | nil => simp
  | cons y ys ih =>
    simp only [List.foldl_cons]
    exact le_trans (le_max_left a y) (ih (max a y))

lemma mem_le_foldl_max {xs : List ℚ} {x : ℚ} (hx : x ∈ xs) (a : ℚ) :
    x ≤ xs.foldl max a := by
  induction xs generalizing a with
  | nil => cases hx
  | cons y ys ih =>
    simp only [List.foldl_cons]
    rcases List.mem_cons.mp hx with rfl | hx'
    · exact le_trans (le_max_right a x) (init_le_foldl_max ys (max a x))
    · exact ih hx' (max a y)

lemma listMin_le_mem {l : List ℚ} {x : ℚ} (hx : x ∈ l) : listMin l ≤ x := by
  cases l with
  | nil => cases hx
  | cons y ys =>
    rcases List.mem_cons.mp hx with rfl | hx'
    · exact foldl_min_le_init ys x
    · exact foldl_min_le_mem hx' y

lemma mem_le_listMax {l : List ℚ} {x : ℚ} (hx : x ∈ l) : x ≤ listMax l := by
  cases l with
  | nil => cases hx
  | cons y ys =>
    rcases List.mem_cons.mp hx with rfl | hx'
    · exact init_le_foldl_max ys x
    · exact mem_le_foldl_max hx' y

lemma listMin_le_listMax {l : List ℚ} (h : l ≠ []) : listMin l ≤ listMax l := by
  cases l with
  | nil => exact absurd rfl h
  | cons y ys =>
    exact le_trans (listMin_le_mem (List.mem_cons_self y ys))
      (mem_le_listMax (List.mem_cons_self y ys))

lemma outer_product_getElem_symm (l : List ℚ) (i j : ℕ) :
    ((l.map (fun a => l.map (fun b => a * b * 255)))[i]? >>= fun row => row[j]?)
  = ((l.map (fun a => l.map (fun b => a * b * 255)))[j]? >>= fun row => row[i]?) := by
  simp only [List.getElem?_map]
  cases hi : l[i]? with
  | none =>
    cases hj : l[j]? with
    | none => rfl
    | some b => simp [List.getElem?_map, hi]
  | some a =>
    cases hj : l[j]? with
    | none => simp [List.getElem?_map, hj]
    | some b =>
      simp [List.getElem?_map, hi, hj]
      ring

/-- C3: for any input vector with `max != min`, the image projection (before
any resize) succeeds deterministically (it is a pure function of the vector)
and returns a `V×V` matrix that is symmetric with all entries in `[0, 255]`. -/
theorem C3_image_projection_symmetric_bounded (e : List ℚ) (hne : e ≠ [])
    (hmm : listMax e ≠ listMin e) :
    ∃ M : List (List ℚ), get_embedding_as_image_tensor e = some M ∧
      M.length = e.length ∧
      (∀ row ∈ M, row.length = e.length) ∧
      (∀ i j : ℕ, (M[i]? >>= fun row : List ℚ => row[j]?)
            = (M[j]? >>= fun row : List ℚ => row[i]?)) ∧
      (∀ row ∈ M, ∀ x ∈ row, 0 ≤ x ∧ x ≤ 255) := by
  have hle : listMin e ≤ listMax e := listMin_le_listMax hne
  have hDpos : 0 < listMax e - listMin e :=
    sub_pos.mpr (lt_of_le_of_ne hle (Ne.symm hmm))
  have hD : ¬(listMax e - listMin e = 0) := ne_of_gt hDpos
  set nrm := e.map (fun x => (x - listMin e) / (listMax e - listMin e)) with hnrm
  have hbound : ∀ y ∈ nrm, 0 ≤ y ∧ y ≤ 1 := by
    intro y hy
    obtain ⟨x, hxe, rfl⟩ := List.mem_map.mp hy
    constructor
    · exact div_nonneg (by linarith [listMin_le_mem hxe]) (le_of_lt hDpos)
    · exact (div_le_one hDpos).mpr (by linarith [mem_le_listMax hxe])
  refine ⟨nrm.map (fun a => nrm.map (fun b => a * b * 255)), ?_, ?_, ?_, ?_, ?_⟩
  · simp only [get_embedding_as_image_tensor]
    rw [if_neg hD]
  · simp [hnrm]
  · intro row hrow
    obtain ⟨a, _, rfl⟩ := List.mem_map.mp hrow
    simp [hnrm]
  · intro i j
    exact outer_product_getElem_symm nrm i j
  · intro row hrow x hx
    obtain ⟨a, ha, rfl⟩ := List.mem_map.mp hrow
    obtain ⟨b, hb, rfl⟩ := List.mem_map.mp hx
    obtain ⟨ha0, ha1⟩ := hbound a ha
    obtain ⟨hb0, hb1⟩ := hbound b hb
    constructor
    · have : (0:ℚ) ≤ a * b := mul_nonneg ha0 hb0
      nlinarith
    · nlinarith

/-- C3 witness: the projection of `[0, 1]` (where `max ≠ min`) is the concrete
symmetric matrix `[[0, 0], [0, 255]]`, with shape 2×2 and entries in range. -/
theorem C3_image_projection_symmetric_bounded_witness :
    ([0, 1] : List ℚ) ≠ [] ∧ listMax [0, 1] ≠ listMin [0, 1] ∧
      ∃ M : List (List ℚ), get_embedding_as_image_tensor [0, 1] = some M ∧
        M.length = ([0, 1] : List ℚ).length ∧
        (∀ row ∈ M, row.length = ([0, 1] : List ℚ).length) ∧
        (∀ i j : ℕ, (M[i]? >>= fun row : List ℚ => row[j]?)
              = (M[j]? >>= fun row : List ℚ => row[i]?)) ∧
        (∀ row ∈ M, ∀ x ∈ row, 0 ≤ x ∧ x ≤ 255) :=
  ⟨by decide, by decide,
    C3_image_projection_symmetric_bounded [0, 1] (by decide) (by decide)⟩

/-- C1: the code does NOT handle the constant-vector (`max == min`) case: the
normalization divides by zero and torch produces an all-NaN image (embedded as
`none`), contradicting the spec's requirement of explicit handling with no
NaN/Inf in the output. -/
theorem C1_constant_vector_produces_nan (e : List ℚ)
    (h : listMax e = listMin e) :
    get_embedding_as_image_tensor e = none := by
  simp [get_embedding_as_image_tensor, sub_eq_zero.mpr h]

/-- C1 witness: the concrete constant vector `[1, 1, 1]` has `max == min` and
its projection is the NaN outcome (`none`). -/
theorem C1_constant_vector_produces_nan_witness :
    listMax [1, 1, 1] = listMin [1, 1, 1] ∧
      get_embedding_as_image_tensor [1, 1, 1] = none :=
  ⟨by decide, C1_constant_vector_produces_nan [1, 1, 1] (by decide)⟩

/-! ## Class Mapping (`datasets.py`, `HumanChatBotDataset.find_classnum_mapping`)

The source collects `data["type"].unique().to_list()`, sorts ascending, and
builds the dict `\x7barticle_type: i for i, article_type in enumerate(sorted)\x7d`.
It is embedded generically over any linearly ordered value type (the Python
values are strings under lexicographic order or numbers under numeric order). -/

/-- The distinct values of a column, in ascending order: embedding of
`unique().to_list()` followed by `.sort()` (`dedup` keeps one copy of each
distinct value; any correct sort produces the same ascending list). -/
def sortedUniqueValues {α : Type*} [LinearOrder α] (values : List α) : List α :=
  values.dedup.insertionSort (fun a b => a ≤ b)

lemma sortedUniqueValues_sorted_lt {α : Type*} [LinearOrder α]
    (values : List α) :
    List.Sorted (fun a b => a < b) (sortedUniqueValues values) :=
  (List.sorted_insertionSort _ _).lt_of_le
    ((List.perm_insertionSort _ _).nodup_iff.mpr (List.nodup_dedup values))

lemma sortedUniqueValues_nodup {α : Type*} [LinearOrder α] (values : List α) :
    (sortedUniqueValues values).Nodup :=
  (List.perm_insertionSort _ _).nodup_iff.mpr (List.nodup_dedup values)

lemma mem_sortedUniqueValues {α : Type*} [LinearOrder α] {values : List α}
    {v : α} : v ∈ sortedUniqueValues values ↔ v ∈ values :=
  (List.mem_insertionSort _).trans (List.mem_dedup)

lemma sortedUniqueValues_sorted_le {α : Type*} [LinearOrder α]
    (values : List α) :
    List.Sorted (fun a b => a ≤ b) (sortedUniqueValues values) :=
  List.sorted_insertionSort _ _

/-- Embedding of `HumanChatBotDataset.find_classnum_mapping` (datasets.py lines
46-54): the Python dict is embedded as an association list pairing each
distinct value with its position in the ascending sorted order. -/
def find_classnum_mapping {α : Type*} [LinearOrder α] (values : List α) :
    List (α × ℕ) :=
  (sortedUniqueValues values).enum.map (fun p => (p.2, p.1))

lemma mem_find_classnum_mapping {α : Type*} [LinearOrder α] {values : List α}
    {v : α} {i : ℕ} (h : (v, i) ∈ find_classnum_mapping values) :
    (sortedUniqueValues values)[i]? = some v := by
  obtain ⟨⟨j, w⟩, hq, heq⟩ := List.mem_map.mp h
  obtain ⟨rfl, rfl⟩ := Prod.mk.injEq .. ▸ And.intro (congrArg Prod.fst heq)
    (congrArg Prod.snd heq)
  exact List.mk_mem_enum_iff_getElem?.mp hq

/-- C4: the class mapping is defined on exactly the distinct observed values,
its assigned indices are exactly `0..n-1` in order (no gaps), it is
functional, and it is strictly order-preserving. -/
theorem C4_class_mapping_dense_order_preserving {α : Type*} [LinearOrder α]
    (values : List α) :
    (find_classnum_mapping values).map Prod.snd
        = List.range values.dedup.length ∧
      (∀ v ∈ values, ∃ i : ℕ, (v, i) ∈ find_classnum_mapping values) ∧
      (∀ p ∈ find_classnum_mapping values, p.1 ∈ values) ∧
      (∀ p q, p ∈ find_classnum_mapping values →
        q ∈ find_classnum_mapping values → p.1 < q.1 → p.2 < q.2) ∧
      (∀ p q, p ∈ find_classnum_mapping values →
        q ∈ find_classnum_mapping values → p.1 = q.1 → p.2 = q.2) := by
  have hsorted : List.Sorted (fun a b => a < b) (sortedUniqueValues values) :=
    sortedUniqueValues_sorted_lt values
  have hnodup : (sortedUniqueValues values).Nodup :=
    sortedUniqueValues_nodup values
  refine ⟨?_, ?_, ?_, ?_, ?_⟩
  · have h1 : (find_classnum_mapping values).map Prod.snd
        = List.map Prod.fst (sortedUniqueValues values).enum := by
      unfold find_classnum_mapping
      rw [List.map_map]
      rfl
    rw [h1, List.enum_map_fst]
    unfold sortedUniqueValues
    rw [List.length_insertionSort]
  · intro v hv
    have hvs : v ∈ sortedUniqueValues values :=
      mem_sortedUniqueValues.mpr hv
    have hlt : List.indexOf v (sortedUniqueValues values)
        < (sortedUniqueValues values).length :=
      List.indexOf_lt_length.mpr hvs
    refine ⟨List.indexOf v (sortedUniqueValues values), ?_⟩
    apply List.mem_map.mpr
    refine ⟨(List.indexOf v (sortedUniqueValues values), v), ?_, rfl⟩
    rw [List.mk_mem_enum_iff_getElem?, List.getElem?_eq_getElem hlt]
    exact congrArg some (List.indexOf_get hlt)
  · intro p hp
    obtain ⟨q, hq, rfl⟩ := List.mem_map.mp hp
    have : q.2 ∈ sortedUniqueValues values := List.snd_mem_of_mem_enum hq
    exact mem_sortedUniqueValues.mp this
  · rintro ⟨a, i⟩ ⟨b, j⟩ hp hq hab
    have hia := mem_find_classnum_mapping hp
    have hjb := mem_find_classnum_mapping hq
    obtain ⟨hi, hia'⟩ := List.getElem?_eq_some_iff.mp hia
    obtain ⟨hj, hjb'⟩ := List.getElem?_eq_some_iff.mp hjb
    by_contra hij
    push_neg at hij
    have hmono := hsorted.get_strictMono.monotone
      (show (⟨j, hj⟩ : Fin _) ≤ ⟨i, hi⟩ from hij)
    simp only [List.get_eq_getElem] at hmono
    rw [hia', hjb'] at hmono
    exact absurd hab (not_lt.mpr hmono)
  · rintro ⟨a, i⟩ ⟨b, j⟩ hp hq hab
    have hia := mem_find_classnum_mapping hp
    have hjb := mem_find_classnum_mapping hq
    obtain ⟨hi, hia'⟩ := List.getElem?_eq_some_iff.mp hia
    obtain ⟨hj, hjb'⟩ := List.getElem?_eq_some_iff.mp hjb
    have : (⟨i, hi⟩ : Fin _) = ⟨j, hj⟩ := by
      apply hnodup.get_inj_iff.mp
      simp only [List.get_eq_getElem]
      rw [hia', hjb']
      exact hab
    simpa using congrArg Fin.val this

/-- C4 witness: on the concrete value list `[3, 1, 3]` the mapping contains
`(1, 0)` and `(3, 1)`, and order preservation gives `0 < 1`. -/
theorem C4_class_mapping_dense_order_preserving_witness :
    ((1 : ℤ), (0 : ℕ)) ∈ find_classnum_mapping [3, 1, 3] ∧
      ((3 : ℤ), (1 : ℕ)) ∈ find_classnum_mapping [3, 1, 3] ∧ (0 : ℕ) < 1 :=
  ⟨by decide, by decide,
    (C4_class_mapping_dense_order_preserving ([3, 1, 3] : List ℤ)).2.2.2.1
      (1, 0) (3, 1) (by decide) (by decide) (by decide)⟩

/-! ## Lazy Dataset (`datasets.py`, `LazyHumanChatBotDataset`) -/

/-- One raw backing record of a `LazyHumanChatBotDataset`: the `type` and
`text` columns that `__post_init__` and `__getitem__` read. -/
structure RawRecord where
  type : String
  text : String
deriving DecidableEq

/-- The failure raised by `LazyHumanChatBotDataset.__post_init__` (datasets.py
lines 300-308) when some observed `type` has no entry in the supplied mapping.
The Python code raises `ValueError("Missing classnumber for types: ...")`
carrying the set of missing types; the spec's error taxonomy names this
failure `MissingMappingError`. -/
inductive DatasetError where
  | MissingMappingError (missingTypes : List String)
deriving DecidableEq

/-- Embedding of the fields of the `LazyHumanChatBotDataset` dataclass: backing
records, the embedding capability, and the `type` → class-number dict
(embedded as a lookup list). -/
structure LazyHumanChatBotDataset where
  data : List RawRecord
  embedder : String → List ℚ
  article_type_to_classnum : List (String × ℤ)

/-- The distinct `type` values present in the backing records:
`self.data["type"].unique().to_list()`. -/
def typesInDataset (data : List RawRecord) : List String :=
  (data.map RawRecord.type).dedup

/-- Embedding of dataclass construction followed by `__post_init__` (datasets.py
lines 300-308): compute the observed types missing from the mapping
(`set(types_in_dataset) - set(keys)`) and raise eagerly if any; otherwise the
dataset is produced.  The check never calls the embedder. -/
def mkLazyHumanChatBotDataset (data : List RawRecord)
    (embedder : String → List ℚ)
    (article_type_to_classnum : List (String × ℤ)) :
    Except DatasetError LazyHumanChatBotDataset :=
  let missing_types := (typesInDataset data).filter
    (fun t => (article_type_to_classnum.lookup t).isNone)
  if missing_types ≠ [] then
    Except.error (DatasetError.MissingMappingError missing_types)
  else
    Except.ok ⟨data, embedder, article_type_to_classnum⟩

/-- Embedding of `get_class_num` (datasets.py lines 310-314): a Python dict
lookup; `none` models the `KeyError` on an absent type. -/
def get_class_num (ds : LazyHumanChatBotDataset) (article_type : String) :
    Option ℤ :=
  ds.article_type_to_classnum.lookup article_type

/-- Embedding of `LazyHumanChatBotDataset.__getitem__` (datasets.py lines
332-337): fetch the row at `idx`, embed its text on demand, and map its type
through the supplied mapping.  `none` models an `IndexError` (out-of-range
index) or a `KeyError` (unmapped type). -/
def lazyGetItem (ds : LazyHumanChatBotDataset) (idx : ℕ) :
    Option (List ℚ × ℤ) :=
  match ds.data[idx]? with
  | none => none
  | some row =>
    match get_class_num ds row.type with
    | none => none
    | some label => some (ds.embedder row.text, label)

lemma mem_typesInDataset {data : List RawRecord} {t : String} :
    t ∈ typesInDataset data ↔ ∃ r ∈ data, r.type = t := by
  unfold typesInDataset
  rw [List.mem_dedup, List.mem_map]

lemma mkLazy_ok_of_covered {data : List RawRecord}
    {embedder : String → List ℚ} {mapping : List (String × ℤ)}
    (hcov : ∀ r ∈ data, (mapping.lookup r.type).isSome) :
    mkLazyHumanChatBotDataset data embedder mapping
      = Except.ok ⟨data, embedder, mapping⟩ := by
  have hnil : (typesInDataset data).filter
      (fun t => (mapping.lookup t).isNone) = [] := by
    apply List.filter_eq_nil_iff.mpr
    intro t ht
    obtain ⟨r, hr, rfl⟩ := mem_typesInDataset.mp ht
    have h1 : mapping.lookup r.type ≠ none :=
      Option.isSome_iff_ne_none.mp (hcov r hr)
    intro hc
    exact h1 (Option.isNone_iff_eq_none.mp hc)
  simp only [mkLazyHumanChatBotDataset]
  rw [if_neg (by simp [hnil])]

/-- C2: construction of a lazy dataset fails with `MissingMappingError` when
some record's type has no mapping entry — eagerly, at construction, for every
embedder, before any item access — and succeeds when every observed type is
mapped. -/
theorem C2_lazy_construction_missing_mapping
    (data : List RawRecord) (embedder : String → List ℚ)
    (mapping : List (String × ℤ)) :
    ((∃ r ∈ data, mapping.lookup r.type = none) →
        ∃ ms, ms ≠ [] ∧
          mkLazyHumanChatBotDataset data embedder mapping
            = Except.error (DatasetError.MissingMappingError ms)) ∧
      ((∀ r ∈ data, (mapping.lookup r.type).isSome) →
        mkLazyHumanChatBotDataset data embedder mapping
          = Except.ok ⟨data, embedder, mapping⟩) := by
  constructor
  · rintro ⟨r, hr, hnone⟩
    have ht : r.type ∈ typesInDataset data :=
      mem_typesInDataset.mpr ⟨r, hr, rfl⟩
    have hmem : r.type ∈ (typesInDataset data).filter
        (fun t => (mapping.lookup t).isNone) :=
      List.mem_filter.mpr ⟨ht, by simp [hnone]⟩
    have hne : (typesInDataset data).filter
        (fun t => (mapping.lookup t).isNone) ≠ [] :=
      List.ne_nil_of_mem hmem
    refine ⟨_, hne, ?_⟩
    simp only [mkLazyHumanChatBotDataset]
    rw [if_pos hne]
  · exact mkLazy_ok_of_covered

/-- C2 witness: with one record of type `"gpt"`, an empty mapping makes
construction fail with `MissingMappingError ["gpt"]`, while the mapping
`[("gpt", 0)]` makes it succeed. -/
theorem C2_lazy_construction_missing_mapping_witness :
    (∃ ms, ms ≠ [] ∧
        mkLazyHumanChatBotDataset [⟨"gpt", "hi"⟩] (fun _ => [0]) []
          = Except.error (DatasetError.MissingMappingError ms)) ∧
      mkLazyHumanChatBotDataset [⟨"gpt", "hi"⟩] (fun _ => [0]) [("gpt", 0)]
        = Except.ok ⟨[⟨"gpt", "hi"⟩], fun _ => [0], [("gpt", 0)]⟩ :=
  ⟨(C2_lazy_construction_missing_mapping [⟨"gpt", "hi"⟩] (fun _ => [0]) []).1
      ⟨⟨"gpt", "hi"⟩, by decide, rfl⟩,
    (C2_lazy_construction_missing_mapping [⟨"gpt", "hi"⟩] (fun _ => [0])
        [("gpt", 0)]).2 (by decide)⟩

/-- C10: the lazy dataset does not enforce the dense-label invariant: any
mapping whose keys cover the observed types is accepted regardless of its
values (negative, gapped, or large), and `__getitem__` returns the mapping's
raw value as the label. -/
theorem C10_lazy_labels_not_dense
    (data : List RawRecord) (embedder : String → List ℚ)
    (mapping : List (String × ℤ))
    (hcov : ∀ r ∈ data, (mapping.lookup r.type).isSome) :
    ∃ ds, mkLazyHumanChatBotDataset data embedder mapping = Except.ok ds ∧
      ∀ (i : ℕ) (r : RawRecord) (v : ℤ), data[i]? = some r →
        mapping.lookup r.type = some v →
        lazyGetItem ds i = some (embedder r.text, v) := by
  refine ⟨⟨data, embedder, mapping⟩, mkLazy_ok_of_covered hcov, ?_⟩
  intro i r v hir hv
  simp only [lazyGetItem, get_class_num, hir, hv]

/-! ## Training harness accounting (`models.py`, `NNBaseModel`) -/

/-- Index of the first maximum of a score list: embedding of
`torch.argmax(..., dim=1)` per sample.  `torch.softmax` is strictly monotone
entrywise, so `argmax(softmax(outputs))` equals `argmax(outputs)` and the
softmax is dropped from the embedding. -/
def argmaxIdx (scores : List ℚ) : ℕ :=
  (scores.enum.foldl
    (fun best p => if best.2 < p.2 then p else best) (0, scores.headD 0)).1

/-- The `make_up` nested `defaultdict` of `compute_accuracy`: an association
list from (predicted class, true class) to count. -/
abbrev Confusion := List ((ℤ × ℤ) × ℕ)

/-- `make_up[i][j] += 1`: increment the count at a key, inserting count 1 when
the key is absent (`defaultdict(int)` semantics). -/
def bumpCount : Confusion → ℤ × ℤ → Confusion
  | [], k => [(k, 1)]
  | (k', c) :: rest, k =>
    if k' = k then (k', c + 1) :: rest else (k', c) :: bumpCount rest k

/-- Sum of the counts over all (predicted, true) pairs of a confusion
breakdown. -/
def confusionTotal (m : Confusion) : ℕ := (m.map Prod.snd).sum

/-- A PyTorch `DataLoader` over (input, label) samples: the backing dataset
(`len(data_loader.dataset)` reads it) plus the sequence of batches the loader
yields.  A real `DataLoader` enumerates every sample exactly once per pass;
theorems take the consequence they need as an explicit hypothesis. -/
structure DataLoaderM (α : Type*) where
  dataset : List (α × ℤ)
  batches : List (List (α × ℤ))

/-- One step of the accumulation inside `compute_accuracy`'s loops: update the
running `correct` count and `make_up[predicted][true] += 1` for one
(sample, label) pair. -/
def accumStep {α : Type*} (model : α → List ℚ) (a : ℕ × Confusion)
    (p : α × ℤ) : ℕ × Confusion :=
  let predicted : ℤ := (argmaxIdx (model p.1) : ℤ)
  (if predicted = p.2 then a.1 + 1 else a.1, bumpCount a.2 (predicted, p.2))

/-- Embedding of `NNBaseModel.compute_accuracy` (models.py lines 41-67): fold
over the loader's batches and, within each batch, over its (prediction, label)
pairs; return `(correct, total_items, accuracy, make_up)` with
`total_items = len(data_loader.dataset)` and `accuracy = correct/total_items`.
The model is the abstract forward function `self(...)`. -/
def compute_accuracy {α : Type*} (model : α → List ℚ)
    (data_loader : DataLoaderM α) : ℕ × ℕ × ℚ × Confusion :=
  let res := data_loader.batches.foldl
    (fun acc batch => batch.foldl (accumStep model) acc) (0, [])
  let total_items := data_loader.dataset.length
  (res.1, total_items, (res.1 : ℚ) / (total_items : ℚ), res.2)

/-- Embedding of `NNBaseModel.compute_loss` (models.py lines 69-82): sum the
per-batch criterion values (the criterion returns each batch's mean loss),
then divide by the number of batches. -/
def compute_loss {α : Type*} (model : α → List ℚ)
    (data_loader : DataLoaderM α)
    (criterion : List (List ℚ) → List ℤ → ℚ) : ℚ :=
  (data_loader.batches.map (fun batch =>
      criterion (batch.map (fun p => model p.1)) (batch.map Prod.snd))).sum
    / (data_loader.batches.length : ℚ)

lemma confusionTotal_bumpCount (m : Confusion) (k : ℤ × ℤ) :
    confusionTotal (bumpCount m k) = confusionTotal m + 1 := by
  induction m with
  | nil => simp [bumpCount, confusionTotal]
  | cons p rest ih =>
    obtain ⟨k', c⟩ := p
    by_cases h : k' = k
    · simp [bumpCount, h, confusionTotal]
      ring
    · simp only [bumpCount, if_neg h, confusionTotal, List.map_cons,
        List.sum_cons] at ih ⊢
      omega

lemma accumStep_batch_total {α : Type*} (model : α → List ℚ)
    (batch : List (α × ℤ)) (acc : ℕ × Confusion) :
    confusionTotal (batch.foldl (accumStep model) acc).2
      = confusionTotal acc.2 + batch.length := by
  induction batch generalizing acc with
  | nil => simp
  | cons p rest ih =>
    simp only [List.foldl_cons, List.length_cons]
    rw [ih]
    have : confusionTotal (accumStep model acc p).2
        = confusionTotal acc.2 + 1 := by
      simp [accumStep, confusionTotal_bumpCount]
    omega

lemma accumStep_batches_total {α : Type*} (model : α → List ℚ)
    (batches : List (List (α × ℤ))) (acc : ℕ × Confusion) :
    confusionTotal (batches.foldl
        (fun acc batch => batch.foldl (accumStep model) acc) acc).2
      = confusionTotal acc.2 + (batches.map List.length).sum := by
  induction batches generalizing acc with
  | nil => simp
  | cons batch rest ih =>
    simp only [List.foldl_cons, List.map_cons, List.sum_cons]
    rw [ih, accumStep_batch_total]
    omega

/-- C5: the confusion breakdown produced by `compute_accuracy` sums, over all
(predicted, true) pairs, to the number of samples in the split — whenever the
loader's batches enumerate exactly the dataset's samples (what a `DataLoader`
pass does). -/
theorem C5_confusion_total_eq_sample_count {α : Type*} (model : α → List ℚ)
    (data_loader : DataLoaderM α)
    (hpass : data_loader.batches.flatten.length = data_loader.dataset.length) :
    confusionTotal (compute_accuracy model data_loader).2.2.2
      = data_loader.dataset.length := by
  have hjoin : (data_loader.batches.map List.length).sum
      = data_loader.dataset.length := by
    rw [← hpass, List.length_flatten]
  simp only [compute_accuracy]
  rw [accumStep_batches_total, hjoin]
  simp [confusionTotal]

/-- C5 witness: a two-sample dataset split into two batches; the confusion
counts sum to 2. -/
theorem C5_confusion_total_eq_sample_count_witness :
    (DataLoaderM.mk [((1 : ℚ), (0 : ℤ)), (2, 1)]
        [[(1, 0)], [(2, 1)]]).batches.flatten.length
      = (DataLoaderM.mk [((1 : ℚ), (0 : ℤ)), (2, 1)]
        [[(1, 0)], [(2, 1)]]).dataset.length ∧
    confusionTotal (compute_accuracy (fun x : ℚ => [x])
        (DataLoaderM.mk [((1 : ℚ), (0 : ℤ)), (2, 1)]
          [[(1, 0)], [(2, 1)]])).2.2.2 = 2 :=
  ⟨rfl, (C5_confusion_total_eq_sample_count (fun x : ℚ => [x])
    (DataLoaderM.mk [((1 : ℚ), (0 : ℤ)), (2, 1)] [[(1, 0)], [(2, 1)]])
    rfl).trans rfl⟩

/-! ## Evaluation-mode scope guard (`models.py`, `NNBaseModel.validation_context`) -/

/-- The two `torch.nn.Module` modes toggled by `self.eval()` and
`self.train()`. -/
inductive Mode where
  | trainMode
  | evalMode
deriving DecidableEq

/-- A stateful, possibly-raising computation over the module's mode: the shape
of the body wrapped by `validation_context`.  The state is the module's mode;
`Except.error` models a raised exception (which propagates in Python while the
`finally` clause still runs). -/
def ModeM (ε α : Type*) := Mode → Except ε α × Mode

/-- Python `try/finally`: run the body and, whether it returned or raised, run
the cleanup on the resulting state before yielding the body's outcome. -/
def tryFinally {ε α : Type*} (body : ModeM ε α) (cleanup : Mode → Mode) :
    ModeM ε α := fun s =>
  let r := body s
  (r.1, cleanup r.2)

/-- Embedding of `NNBaseModel.validation_context` (models.py lines 88-94):
inside the `try`, `self.eval()` switches the module to `evalMode` and the body
runs from that mode; the `finally` clause runs `self.train()`,
unconditionally restoring `trainMode`. -/
def validation_context {ε α : Type*} (body : ModeM ε α) : ModeM ε α :=
  tryFinally (fun _ => body Mode.evalMode) (fun _ => Mode.trainMode)

/-- C6: the wrapped body runs in inference mode (`evalMode`), and the module is
restored to `trainMode` on every exit path — the final mode is `trainMode`
unconditionally, the body's normal result is returned in `trainMode`, and a
raised error propagates with the mode still restored to `trainMode`. -/
theorem C6_validation_context_restores_train_mode {ε α : Type*}
    (body : ModeM ε α) (s : Mode) :
    (validation_context body s).2 = Mode.trainMode ∧
      (∀ a m, body Mode.evalMode = (Except.ok a, m) →
        validation_context body s = (Except.ok a, Mode.trainMode)) ∧
      (∀ e m, body Mode.evalMode = (Except.error e, m) →
        validation_context body s = (Except.error e, Mode.trainMode)) := by
  refine ⟨rfl, ?_, ?_⟩
  · intro a m h
    simp [validation_context, tryFinally, h]
  · intro e m h
    simp [validation_context, tryFinally, h]

/-- C6 witness: for a concrete normally-returning body and a concrete raising
body, the guard returns their outcome with the mode restored to training. -/
theorem C6_validation_context_restores_train_mode_witness :
    (validation_context (fun m => (Except.ok 7, m)) Mode.trainMode
        : Except Unit ℕ × Mode) = (Except.ok 7, Mode.trainMode) ∧
      (validation_context (fun m => (Except.error (), m)) Mode.trainMode
        : Except Unit ℕ × Mode) = (Except.error (), Mode.trainMode) :=
  ⟨(C6_validation_context_restores_train_mode
      (fun m => (Except.ok 7, m)) Mode.trainMode).2.1 7 Mode.evalMode rfl,
    (C6_validation_context_restores_train_mode
      (fun m => (Except.error (), m)) Mode.trainMode).2.2 () Mode.evalMode rfl⟩

/-! ## Experiment Result Record and the epoch loop (`models.py`) -/

/-- Modelled from the spec: `NeuralNetworkExperimentResult` lives in
`mlproject/data_processing.py`, which is not part of the two provided source
files.  Per the spec's Experiment Result Record, it owns immutable run
metadata set at construction (learning rate, batch size, optimizer and
criterion identifiers, planned epoch count) plus four metric series and two
Confusion Breakdown series, all starting empty and append-only. -/
structure NeuralNetworkExperimentResult where
  learning_rate : ℚ
  training_batch_size : ℕ
  optimizer_name : String
  criterion_name : String
  epochs : ℕ
  training_losses : List ℚ := []
  testing_losses : List ℚ := []
  training_accuracies : List ℚ := []
  testing_accuracies : List ℚ := []
  training_classification_results : List Confusion := []
  testing_classification_results : List Confusion := []

/-- Embedding of `NNBaseModel._validate_after_epoch` (models.py lines
114-138): compute training loss, training accuracy, testing loss, testing
accuracy and the two confusion breakdowns for the current weights, and append
each to its series in the result record. -/
def _validate_after_epoch {α : Type*} (model : α → List ℚ)
    (train_loader test_loader : DataLoaderM α)
    (criterion : List (List ℚ) → List ℤ → ℚ)
    (exp_result : NeuralNetworkExperimentResult) :
    NeuralNetworkExperimentResult :=
  let training_loss := compute_loss model train_loader criterion
  let tr_acc := compute_accuracy model train_loader
  let testing_loss := compute_loss model test_loader criterion
  let te_acc := compute_accuracy model test_loader
  { exp_result with
    training_losses := exp_result.training_losses ++ [training_loss]
    training_accuracies := exp_result.training_accuracies ++ [tr_acc.2.2.1]
    testing_losses := exp_result.testing_losses ++ [testing_loss]
    testing_accuracies := exp_result.testing_accuracies ++ [te_acc.2.2.1]
    training_classification_results :=
      exp_result.training_classification_results ++ [tr_acc.2.2.2]
    testing_classification_results :=
      exp_result.testing_classification_results ++ [te_acc.2.2.2] }

/-- Embedding of `NNBaseModel.validate_after_epoch` (models.py lines 97-112):
run `_validate_after_epoch` inside the `validation_context` scope guard.  The
metric computation is pure, so the body returns the updated record without
raising. -/
def validate_after_epoch {α : Type*} (model : α → List ℚ)
    (train_loader test_loader : DataLoaderM α)
    (criterion : List (List ℚ) → List ℤ → ℚ)
    (exp_result : NeuralNetworkExperimentResult) :
    ModeM Empty NeuralNetworkExperimentResult :=
  validation_context (fun m =>
    (Except.ok (_validate_after_epoch model train_loader test_loader criterion
      exp_result), m))

/-- One iteration of the epoch loop of `LogisticRegression.run_training`
(models.py lines 183-198): run the mini-batch gradient steps (abstracted as
`trainEpoch` on the weights; the loop's effect on the record is nil) and then
`validate_after_epoch`. -/
def trainingEpochStep {α W : Type*} (forward : W → α → List ℚ)
    (trainEpoch : W → W) (criterion : List (List ℚ) → List ℤ → ℚ)
    (train_loader test_loader : DataLoaderM α)
    (st : W × Mode × NeuralNetworkExperimentResult) :
    W × Mode × NeuralNetworkExperimentResult :=
  let w' := trainEpoch st.1
  let r := validate_after_epoch (forward w') train_loader test_loader criterion
    st.2.2 st.2.1
  match r.1 with
  | Except.ok exp' => (w', r.2, exp')
  | Except.error e => e.elim

/-- Embedding of `LogisticRegression.run_training` (models.py lines 161-199):
construct a fresh result record carrying the run metadata (series empty), then
run the per-epoch loop for `epochs` epochs.  The gradient-descent details are
the abstract parameters `forward` (the model as a function of its weights) and
`trainEpoch` (the net effect of one epoch of optimizer steps on the
weights). -/
def run_training {α W : Type*} (forward : W → α → List ℚ)
    (trainEpoch : W → W) (criterion : List (List ℚ) → List ℤ → ℚ)
    (train_loader test_loader : DataLoaderM α)
    (learning_rate : ℚ) (epochs : ℕ) (w0 : W) :
    W × Mode × NeuralNetworkExperimentResult :=
  let exp_result : NeuralNetworkExperimentResult :=
    { learning_rate := learning_rate
      training_batch_size := 32
      optimizer_name := "SGD"
      criterion_name := "CrossEntropyLoss"
      epochs := epochs }
  (List.range epochs).foldl
    (fun st _ => trainingEpochStep forward trainEpoch criterion train_loader
      test_loader st)
    (w0, Mode.trainMode, exp_result)

lemma run_loop_characterization {α W : Type*} (forward : W → α → List ℚ)
    (trainEpoch : W → W) (criterion : List (List ℚ) → List ℤ → ℚ)
    (train_loader test_loader : DataLoaderM α) :
    ∀ (l : List ℕ) (w : W),
      ∃ (wF : W) (mF : Mode → Mode) (d1 d2 d3 d4 : List ℚ)
        (d5 d6 : List Confusion),
        d1.length = l.length ∧ d2.length = l.length ∧ d3.length = l.length ∧
        d4.length = l.length ∧ d5.length = l.length ∧ d6.length = l.length ∧
        ∀ (m : Mode) (exp : NeuralNetworkExperimentResult),
          l.foldl (fun st _ => trainingEpochStep forward trainEpoch criterion
              train_loader test_loader st) (w, m, exp)
            = (wF, mF m,
                { exp with
                  training_losses := exp.training_losses ++ d1
                  training_accuracies := exp.training_accuracies ++ d2
                  testing_losses := exp.testing_losses ++ d3
                  testing_accuracies := exp.testing_accuracies ++ d4
                  training_classification_results :=
                    exp.training_classification_results ++ d5
                  testing_classification_results :=
                    exp.testing_classification_results ++ d6 }) := by
  intro l
  induction l with
  | nil =>
    intro w
    exact ⟨w, id, [], [], [], [], [], [], rfl, rfl, rfl, rfl, rfl, rfl,
      fun m exp => by simp⟩
  | cons a l ih =>
    intro w
    obtain ⟨wF, mF, d1, d2, d3, d4, d5, d6, h1, h2, h3, h4, h5, h6, heq⟩ :=
      ih (trainEpoch w)
    refine ⟨wF, fun _ => mF Mode.trainMode,
      compute_loss (forward (trainEpoch w)) train_loader criterion :: d1,
      (compute_accuracy (forward (trainEpoch w)) train_loader).2.2.1 :: d2,
      compute_loss (forward (trainEpoch w)) test_loader criterion :: d3,
      (compute_accuracy (forward (trainEpoch w)) test_loader).2.2.1 :: d4,
      (compute_accuracy (forward (trainEpoch w)) train_loader).2.2.2 :: d5,
      (compute_accuracy (forward (trainEpoch w)) test_loader).2.2.2 :: d6,
      by simp [h1], by simp [h2], by simp [h3], by simp [h4], by simp [h5],
      by simp [h6], ?_⟩
    intro m exp
    have hstep : trainingEpochStep forward trainEpoch criterion train_loader
        test_loader (w, m, exp)
        = (trainEpoch w, Mode.trainMode,
            _validate_after_epoch (forward (trainEpoch w)) train_loader
              test_loader criterion exp) := rfl
    simp only [List.foldl_cons, hstep]
    rw [heq]
    simp [_validate_after_epoch]

/-- C7: after a completed `run_training` of `E` epochs, each of the four
metric series and the two confusion series of the resulting record has length
exactly `E`; and the series are strictly append-only in epoch order: the run
of `E + 1` epochs extends each series of the run of `E` epochs by exactly one
appended entry. -/
theorem C7_run_training_one_entry_per_epoch {α W : Type*}
    (forward : W → α → List ℚ) (trainEpoch : W → W)
    (criterion : List (List ℚ) → List ℤ → ℚ)
    (train_loader test_loader : DataLoaderM α)
    (learning_rate : ℚ) (epochs : ℕ) (w0 : W) :
    ((run_training forward trainEpoch criterion train_loader test_loader
        learning_rate epochs w0).2.2.training_losses.length = epochs ∧
      (run_training forward trainEpoch criterion train_loader test_loader
        learning_rate epochs w0).2.2.training_accuracies.length = epochs ∧
      (run_training forward trainEpoch criterion train_loader test_loader
        learning_rate epochs w0).2.2.testing_losses.length = epochs ∧
      (run_training forward trainEpoch criterion train_loader test_loader
        learning_rate epochs w0).2.2.testing_accuracies.length = epochs ∧
      (run_training forward trainEpoch criterion train_loader test_loader
        learning_rate epochs w0).2.2.training_classification_results.length
          = epochs ∧
      (run_training forward trainEpoch criterion train_loader test_loader
        learning_rate epochs w0).2.2.testing_classification_results.length
          = epochs) ∧
    ∃ (x1 x2 x3 x4 : ℚ) (y1 y2 : Confusion),
      (run_training forward trainEpoch criterion train_loader test_loader
          learning_rate (epochs + 1) w0).2.2.training_losses
        = (run_training forward trainEpoch criterion train_loader test_loader
          learning_rate epochs w0).2.2.training_losses ++ [x1] ∧
      (run_training forward trainEpoch criterion train_loader test_loader
          learning_rate (epochs + 1) w0).2.2.training_accuracies
        = (run_training forward trainEpoch criterion train_loader test_loader
          learning_rate epochs w0).2.2.training_accuracies ++ [x2] ∧
      (run_training forward trainEpoch criterion train_loader test_loader
          learning_rate (epochs + 1) w0).2.2.testing_losses
        = (run_training forward trainEpoch criterion train_loader test_loader
          learning_rate epochs w0).2.2.testing_losses ++ [x3] ∧
      (run_training forward trainEpoch criterion train_loader test_loader
          learning_rate (epochs + 1) w0).2.2.testing_accuracies
        = (run_training forward trainEpoch criterion train_loader test_loader
          learning_rate epochs w0).2.2.testing_accuracies ++ [x4] ∧
      (run_training forward trainEpoch criterion train_loader test_loader
          learning_rate (epochs + 1) w0).2.2.training_classification_results
        = (run_training forward trainEpoch criterion train_loader test_loader
          learning_rate epochs w0).2.2.training_classification_results
            ++ [y1] ∧
      (run_training forward trainEpoch criterion train_loader test_loader
          learning_rate (epochs + 1) w0).2.2.testing_classification_results
        = (run_training forward trainEpoch criterion train_loader test_loader
          learning_rate epochs w0).2.2.testing_classification_results
            ++ [y2] := by
  obtain ⟨wF, mF, d1, d2, d3, d4, d5, d6, h1, h2, h3, h4, h5, h6, heq⟩ :=
    run_loop_characterization forward trainEpoch criterion train_loader
      test_loader (List.range epochs) w0
  constructor
  · simp only [run_training]
    rw [heq]
    simp [h1, h2, h3, h4, h5, h6]
  · have hsucc : List.range (epochs + 1) = List.range epochs ++ [epochs] :=
      List.range_succ epochs
    simp only [run_training, hsucc, List.foldl_append, List.foldl_cons,
      List.foldl_nil]
    rw [heq, heq]
    exact ⟨_, _, _, _, _, _, rfl, rfl, rfl, rfl, rfl, rfl⟩

/-- C10 witness: a mapping with negative and gapped values (`-7` and `100`)
covering the two observed types is accepted, and item access returns the raw
mapped values. -/
theorem C10_lazy_labels_not_dense_witness :
    ∃ ds, mkLazyHumanChatBotDataset [⟨"human", "h"⟩, ⟨"bot", "b"⟩]
        (fun _ => [1]) [("bot", -7), ("human", 100)] = Except.ok ds ∧
      ∀ (i : ℕ) (r : RawRecord) (v : ℤ),
        ([⟨"human", "h"⟩, ⟨"bot", "b"⟩] : List RawRecord)[i]? = some r →
        ([("bot", -7), ("human", 100)] : List (String × ℤ)).lookup r.type
          = some v →
        lazyGetItem ds i = some ((fun _ : String => [(1 : ℚ)]) r.text, v) :=
  C10_lazy_labels_not_dense [⟨"human", "h"⟩, ⟨"bot", "b"⟩] (fun _ => [1])
    [("bot", -7), ("human", 100)] (by decide)

/-! ## Projection-backed image dataset (`datasets.py`,
`ImageByCrossMultiplicationDataset`)

`transforms.Resize` interpolates pixel values; it enters the embedding as an
abstract deterministic function `resizeT` on images, applied identically
wherever the source applies `resize_transform`. -/

/-- The projection applied to one sample by both the `__post_init__` precompute
loop and `__getitem__`: `get_embedding_as_image_tensor` followed by the
optional resize.  The `Option` propagates the NaN outcome of a degenerate
embedding. -/
def applyProjection (resizeT : List (List ℚ) → List (List ℚ)) (resize : Bool)
    (embedding : List ℚ) : Option (List (List ℚ)) :=
  match get_embedding_as_image_tensor embedding with
  | none => none
  | some img => some (if resize then resizeT img else img)

/-- Embedding of the `ImageByCrossMultiplicationDataset` dataclass fields: the
backing eager dataset's (embedding, label) samples, the two flags, and the
index-keyed image cache dict. -/
structure ImageByCrossMultiplicationDataset where
  human_chatbot_ds : List (List ℚ × ℤ)
  resize : Bool
  precompute : Bool
  cache : List (ℕ × Option (List (List ℚ)))

/-- The `__post_init__` precompute loop (datasets.py lines 212-220):
`self.cache[i] = image` for each index `i` in order, starting at `start`. -/
def buildCache (resizeT : List (List ℚ) → List (List ℚ)) (resize : Bool) :
    List (List ℚ × ℤ) → ℕ → List (ℕ × Option (List (List ℚ)))
  | [], _ => []
  | r :: rs, i =>
    (i, applyProjection resizeT resize r.1) :: buildCache resizeT resize rs (i + 1)

/-- Embedding of dataclass construction plus `__post_init__` (datasets.py
lines 205-220): the cache dict starts empty and is filled for every index
exactly when `precompute` is set.  (The `_image_height`/`_image_width`
bookkeeping does not affect `__getitem__` and is omitted.) -/
def mkImageByCrossMultiplicationDataset
    (resizeT : List (List ℚ) → List (List ℚ))
    (rows : List (List ℚ × ℤ)) (resize precompute : Bool) :
    ImageByCrossMultiplicationDataset :=
  { human_chatbot_ds := rows
    resize := resize
    precompute := precompute
    cache := if precompute then buildCache resizeT resize rows 0 else [] }

/-- Embedding of `ImageByCrossMultiplicationDataset.__getitem__` (datasets.py
lines 248-255): read the backing sample (an out-of-range index raises,
modeled `none`); if the cache dict is nonempty answer from it (a missing key
raises `KeyError`, modeled `none`); otherwise project on the fly. -/
def imageGetItem (resizeT : List (List ℚ) → List (List ℚ))
    (d : ImageByCrossMultiplicationDataset) (idx : ℕ) :
    Option (Option (List (List ℚ)) × ℤ) :=
  match d.human_chatbot_ds[idx]? with
  | none => none
  | some s =>
    if d.cache ≠ [] then
      match d.cache.lookup idx with
      | none => none
      | some img => some (img, s.2)
    else
      some (applyProjection resizeT d.resize s.1, s.2)

lemma buildCache_lookup (resizeT : List (List ℚ) → List (List ℚ))
    (resize : Bool) :
    ∀ (rs : List (List ℚ × ℤ)) (start k : ℕ) (h : k < rs.length),
      (buildCache resizeT resize rs start).lookup (start + k)
        = some (applyProjection resizeT resize (rs.get ⟨k, h⟩).1) := by
  intro rs
  induction rs with
  | nil => intro start k h; cases (Nat.not_lt_zero k) h
  | cons r rs ih =>
    intro start k h
    cases k with
    | zero => simp [buildCache, List.lookup]
    | succ k =>
      have hne : ((start + (k + 1) == start) = false) := by
        simp only [beq_eq_false_iff_ne, ne_eq]
        omega
      simp only [buildCache, List.lookup, hne]
      have hk : k < rs.length := by
        simp only [List.length_cons] at h
        omega
      have hrec := ih (start + 1) k hk
      rw [show start + 1 + k = start + (k + 1) by omega] at hrec
      rw [hrec]
      simp [List.get_eq_getElem]

/-- C8: for every backing dataset, resize flag and index, `__getitem__`
returns the same (image, label) outcome whether the dataset was constructed
with `precompute=True` (cache fully populated at construction) or
`precompute=False` (projection on each access). -/
theorem C8_precompute_access_equivalence
    (resizeT : List (List ℚ) → List (List ℚ))
    (rows : List (List ℚ × ℤ)) (resize : Bool) (idx : ℕ) :
    imageGetItem resizeT
        (mkImageByCrossMultiplicationDataset resizeT rows resize true) idx
      = imageGetItem resizeT
        (mkImageByCrossMultiplicationDataset resizeT rows resize false) idx := by
  cases hrow : rows[idx]? with
  | none =>
    simp [imageGetItem, mkImageByCrossMultiplicationDataset, hrow]
  | some s =>
    obtain ⟨hlt, hval⟩ := List.getElem?_eq_some_iff.mp hrow
    cases rows with
    | nil => simp at hlt
    | cons r rs =>
      have hcache : (buildCache resizeT resize (r :: rs) 0) ≠ [] := by
        simp [buildCache]
      have hlook : (buildCache resizeT resize (r :: rs) 0).lookup idx
          = some (applyProjection resizeT resize
              ((r :: rs).get ⟨idx, hlt⟩).1) := by
        have := buildCache_lookup resizeT resize (r :: rs) 0 idx hlt
        rwa [Nat.zero_add] at this
      have hget : ((r :: rs).get ⟨idx, hlt⟩) = s := by
        rw [List.get_eq_getElem, hval]
      rw [hget] at hlook
      simp [imageGetItem, mkImageByCrossMultiplicationDataset, hrow, hcache,
        hlook]

/-! ## Tabular Sample Store (`datasets.py`, `HumanChatBotDataset`): the CSV
round-trip

`save` writes the store's DataFrame with `write_csv`; `load` is `read_csv`
followed by the class constructor, whose `__post_init__` re-applies the label
normalization.  The CSV transport of the numeric values is taken as faithful
(the claim allows floating-point tolerance); what the code must guarantee is
that the reload's `__post_init__` reproduces the store unchanged. -/

/-- The polars DataFrame backing a `HumanChatBotDataset`: an optional `type`
column, the `label` column, and the feature columns row-wise. -/
structure PLDataFrame where
  types : Option (List String)
  labels : List ℤ
  features : List (List ℚ)
deriving DecidableEq

/-- `pl.col("label").replace(mappings)` (datasets.py line 38): each label is
replaced by its mapped value; values absent from the dict are left unchanged
(every present label has an entry, built from the same column). -/
def replaceLabels (mappings : List (ℤ × ℕ)) (labels : List ℤ) : List ℤ :=
  labels.map (fun x =>
    match mappings.lookup x with
    | some i => (i : ℤ)
    | none => x)

/-- `any(k != v for k, v in mappings.items())` (datasets.py line 35). -/
def should_apply_mappings (mappings : List (ℤ × ℕ)) : Bool :=
  mappings.any (fun p => p.1 ≠ (p.2 : ℤ))

/-- Embedding of `HumanChatBotDataset.__post_init__` (datasets.py lines
27-44): build the sorted-distinct-label mapping (the same construction as
`find_classnum_mapping`, applied to the `label` column), rewrite the label
column unless the mapping is the identity, drop the `type` column, and record
`number_of_classes = len(present_labels)`.  Returns (DataFrame, class
count). -/
def hcb_post_init (df : PLDataFrame) : PLDataFrame × ℕ :=
  let mappings := find_classnum_mapping df.labels
  let labels' :=
    if should_apply_mappings mappings
    then replaceLabels mappings df.labels
    else df.labels
  ({ types := none, labels := labels', features := df.features },
    (sortedUniqueValues df.labels).length)

/-- Embedding of `save` (datasets.py lines 127-133): `write_csv` emits the
store's post-processed DataFrame. -/
def hcb_save (store : PLDataFrame × ℕ) : PLDataFrame := store.1

/-- Embedding of `load` (datasets.py lines 114-125): `read_csv` the DataFrame
back, then construct the class (running `__post_init__` again). -/
def hcb_load (df : PLDataFrame) : PLDataFrame × ℕ := hcb_post_init df

lemma lookup_enumFrom_swap {α : Type*} [DecidableEq α] :
    ∀ (S : List α) (n : ℕ) (v : α),
      ((List.enumFrom n S).map (fun p => (p.2, p.1))).lookup v
        = if v ∈ S then some (n + S.indexOf v) else none := by
  intro S
  induction S with
  | nil => intro n v; simp [List.enumFrom]
  | cons a S ih =>
    intro n v
    simp only [List.enumFrom, List.map_cons, List.lookup]
    by_cases hva : v = a
    · subst hva
      simp [List.indexOf_cons_self]
    · have hbeq : (v == a) = false := beq_eq_false_iff_ne.mpr hva
      simp only [hbeq]
      rw [ih (n + 1) v]
      by_cases hmem : v ∈ S
      · rw [if_pos hmem, if_pos (List.mem_cons.mpr (Or.inr hmem))]
        rw [List.indexOf_cons_ne S (Ne.symm hva)]
        congr 1
        omega
      · rw [if_neg hmem, if_neg (by simp [hva, hmem])]

lemma lookup_find_classnum_mapping {α : Type*} [LinearOrder α]
    (values : List α) (v : α) :
    (find_classnum_mapping values).lookup v
      = if v ∈ sortedUniqueValues values
        then some (List.indexOf v (sortedUniqueValues values)) else none := by
  unfold find_classnum_mapping
  rw [show (sortedUniqueValues values).enum
      = List.enumFrom 0 (sortedUniqueValues values) from rfl]
  rw [lookup_enumFrom_swap]
  simp

lemma replaceLabels_eq_map (L : List ℤ) :
    replaceLabels (find_classnum_mapping L) L
      = L.map (fun x => ((sortedUniqueValues L).indexOf x : ℤ)) := by
  unfold replaceLabels
  apply List.map_congr_left
  intro x hx
  rw [lookup_find_classnum_mapping, if_pos (mem_sortedUniqueValues.mpr hx)]

lemma sortedUnique_of_map_indexOf (L : List ℤ) :
    sortedUniqueValues (L.map (fun x => ((sortedUniqueValues L).indexOf x : ℤ)))
      = (List.range (sortedUniqueValues L).length).map (fun i : ℕ => (i : ℤ)) := by
  have hcastinj : Function.Injective (fun i : ℕ => (i : ℤ)) :=
    fun a b h => by simpa using h
  have hTnodup :
      ((List.range (sortedUniqueValues L).length).map
        (fun i : ℕ => (i : ℤ))).Nodup :=
    (List.nodup_range _).map hcastinj
  have hTsorted : List.Sorted (fun a b => a ≤ b)
      ((List.range (sortedUniqueValues L).length).map (fun i : ℕ => (i : ℤ))) :=
    List.Pairwise.map _ (fun a b h => by exact_mod_cast Nat.le_of_lt h)
      (List.pairwise_lt_range _)
  have hmem : ∀ x : ℤ,
      (x ∈ sortedUniqueValues
        (L.map (fun x => ((sortedUniqueValues L).indexOf x : ℤ)))
        ↔ x ∈ (List.range (sortedUniqueValues L).length).map
            (fun i : ℕ => (i : ℤ))) := by
    intro x
    rw [mem_sortedUniqueValues]
    constructor
    · intro hx
      obtain ⟨y, hy, rfl⟩ := List.mem_map.mp hx
      have hyS : y ∈ sortedUniqueValues L := mem_sortedUniqueValues.mpr hy
      exact List.mem_map.mpr ⟨(sortedUniqueValues L).indexOf y,
        List.mem_range.mpr (List.indexOf_lt_length.mpr hyS), rfl⟩
    · intro hx
      obtain ⟨i, hi, rfl⟩ := List.mem_map.mp hx
      have hi' : i < (sortedUniqueValues L).length := List.mem_range.mp hi
      refine List.mem_map.mpr ⟨(sortedUniqueValues L).get ⟨i, hi'⟩, ?_, ?_⟩
      · exact mem_sortedUniqueValues.mp (List.get_mem _ _ _)
      · rw [List.get_indexOf (sortedUniqueValues_nodup L) ⟨i, hi'⟩]
  refine List.eq_of_perm_of_sorted ?_ (sortedUniqueValues_sorted_le _) hTsorted
  exact List.perm_of_nodup_nodup_toFinset_eq (sortedUniqueValues_nodup _)
    hTnodup (Finset.ext fun x => by
      simp only [List.mem_toFinset]
      exact hmem x)

lemma should_apply_false_of_range (L' : List ℤ) (n : ℕ)
    (hS : sortedUniqueValues L'
      = (List.range n).map (fun i : ℕ => (i : ℤ))) :
    should_apply_mappings (find_classnum_mapping L') = false := by
  unfold should_apply_mappings
  rw [List.any_eq_false]
  rintro ⟨v, i⟩ hmem
  have hvi := mem_find_classnum_mapping hmem
  rw [hS, List.getElem?_map] at hvi
  by_cases hi : i < n
  · rw [List.getElem?_range hi] at hvi
    have : v = (i : ℤ) := by
      simpa using hvi.symm
    simp [this]
  · rw [List.getElem?_eq_none (by simpa using hi)] at hvi
    simp at hvi

/-- C9: saving a constructed tabular store to CSV and reloading it yields an
identical store: the reload's `__post_init__` finds the labels already densely
0-indexed (so the mapping is the identity and no rewrite occurs) and
reproduces the same labels, features, row count and class count. -/
theorem C9_save_load_roundtrip (df : PLDataFrame) :
    hcb_load (hcb_save (hcb_post_init df)) = hcb_post_init df := by
  unfold hcb_load hcb_save
  by_cases h : should_apply_mappings (find_classnum_mapping df.labels) = true
  · have h1 : hcb_post_init df
        = (⟨none, replaceLabels (find_classnum_mapping df.labels) df.labels,
            df.features⟩, (sortedUniqueValues df.labels).length) := by
      simp [hcb_post_init, h]
    rw [h1]
    have hmap : replaceLabels (find_classnum_mapping df.labels) df.labels
        = df.labels.map (fun x => ((sortedUniqueValues df.labels).indexOf x : ℤ)) :=
      replaceLabels_eq_map df.labels
    have hS : sortedUniqueValues
        (replaceLabels (find_classnum_mapping df.labels) df.labels)
        = (List.range (sortedUniqueValues df.labels).length).map
            (fun i : ℕ => (i : ℤ)) := by
      rw [hmap]
      exact sortedUnique_of_map_indexOf df.labels
    have h2 : should_apply_mappings (find_classnum_mapping
        (replaceLabels (find_classnum_mapping df.labels) df.labels)) = false :=
      should_apply_false_of_range _ _ hS
    simp [hcb_post_init, h2, hS]
  · have h0 : should_apply_mappings (find_classnum_mapping df.labels) = false := by
      simpa using h
    simp [hcb_post_init, h0]

end MLProject
